import Mathlib

/-!
Verification of the credential rotation state machine implemented in
`lesson-13/infrastructure/secret_rotation_lambda.py`.

The lambda drives a four-step rotation protocol (createSecret, setSecret,
testSecret, finishSecret) against AWS Secrets Manager.  We embed the store
state of a single secret as an association list from version ids to
versions (a payload plus a list of stage labels), embed the Secrets
Manager operations the lambda calls (`get_secret_value`,
`put_secret_value`, `update_secret_version_stage`, `describe_secret`)
with their documented semantics, and embed each Python function of the
lambda as a Lean function over that state.  Randomness (password
sampling), database connectivity and query outcomes are passed in as
explicit parameters; recursion in `generate_password` is made structural
with an explicit fuel argument, where exhausting any fuel bound models
the unbounded recursion of the source.
-/

namespace SecretRotation

/-- The structured credential record stored as the secret's JSON payload:
host, port, database name, username, password. -/
structure Payload where
  host : String
  port : String
  dbname : String
  username : String
  password : String
deriving DecidableEq, Repr

/-- One secret version: its payload and the list of staging labels
attached to it (`VersionIdsToStages` entry). -/
structure Version where
  payload : Payload
  stages : List String
deriving DecidableEq, Repr

/-- The store state of a single secret: an association list from version
id (the client request token that created the version) to the version. -/
structure SecretState where
  versions : List (String × Version)
deriving DecidableEq, Repr

/-- The stage label `AWSCURRENT`. -/
def AWSCURRENT : String := "AWSCURRENT"

/-- The stage label `AWSPENDING`. -/
def AWSPENDING : String := "AWSPENDING"

/-- Errors surfaced by the store client or raised by the lambda. -/
inductive RotErr where
  | resourceNotFound
  | resourceExists
  | invalidParam
  | versionNotFound
  | invalidStagingLabel
  | noCurrentVersion
  | invalidStep
  | applyFailed
  | connectError
  | queryError
  | testFailed
deriving DecidableEq, Repr

/-- Does a version carry the given stage label? -/
def hasStage (v : Version) (s : String) : Bool :=
  v.stages.contains s

/-- First version (in `VersionIdsToStages` iteration order) carrying the
given stage label, with its version id. -/
def findStage (st : SecretState) (s : String) : Option (String × Version) :=
  st.versions.find? (fun p => hasStage p.2 s)

/-- Is the given string one of the secret's version ids? -/
def keyMem (st : SecretState) (k : String) : Bool :=
  st.versions.any (fun p => p.1 == k)

/-- `get_secret_value(SecretId, VersionId=token, VersionStage=s)`: the
version whose id is `token` and which carries stage `s`, if any. -/
def getByTokenStage (st : SecretState) (token s : String) : Option Version :=
  (st.versions.find? (fun p => p.1 == token && hasStage p.2 s)).map Prod.snd

/-- `get_secret_dict(service, arn, stage, token=None)` from the source:
fetch by stage alone, or by stage and version id, and parse the payload. -/
def get_secret_dict (st : SecretState) (stage : String) (token : Option String) : Option Payload :=
  match token with
  | none => (findStage st stage).map (fun p => p.2.payload)
  | some t => (getByTokenStage st t stage).map Version.payload

/-- Remove a stage label from every version (Secrets Manager detaches a
staging label from the version holding it before attaching it elsewhere). -/
def stripStage (s : String) (st : SecretState) : SecretState :=
  ⟨st.versions.map (fun p => (p.1, ⟨p.2.payload, p.2.stages.filter (fun l => l != s)⟩))⟩

/-- Attach a stage label to a list of labels (no duplicates). -/
def addStage (ls : List String) (s : String) : List String :=
  if ls.contains s then ls else ls ++ [s]

/-- Per-entry effect of attaching stage `s` to the version with id `m`. -/
def attachStageFun (s m : String) : (String × Version) → (String × Version) := fun p =>
  if p.1 == m then (p.1, ⟨p.2.payload, addStage p.2.stages s⟩) else p

/-- Per-entry effect of moving stage `s` onto the version with id `m`,
removing it from the version with id `r`. -/
def moveStageFun (s m r : String) : (String × Version) → (String × Version) := fun p =>
  if p.1 == m then (p.1, ⟨p.2.payload, addStage p.2.stages s⟩)
  else if p.1 == r then (p.1, ⟨p.2.payload, p.2.stages.filter (fun l => l != s)⟩)
  else p

/-- `put_secret_value(SecretId, ClientRequestToken=token, SecretString,
VersionStages=[AWSPENDING])`.  Secrets Manager rejects a replay of an
existing token with different content; otherwise it moves the
`AWSPENDING` label onto the (new or replayed) version. -/
def put_secret_value (st : SecretState) (token : String) (payload : Payload) : Except RotErr SecretState :=
  if st.versions.any (fun p => p.1 == token && p.2.payload != payload) then
    .error .resourceExists
  else
    let stripped := (stripStage AWSPENDING st).versions
    if keyMem st token then
      .ok ⟨stripped.map (attachStageFun AWSPENDING token)⟩
    else
      .ok ⟨stripped ++ [(token, ⟨payload, [AWSPENDING]⟩)]⟩

/-- `update_secret_version_stage(SecretId, VersionStage=stage,
ClientRequestToken=moveTo, RemoveFromVersionId=removeFrom)`.  Passing
`None` for `RemoveFromVersionId` fails client-side parameter validation;
the target version must exist and the source version must hold the
label.  On success the label moves in one atomic metadata update. -/
def update_secret_version_stage (st : SecretState) (stage : String) (moveTo : String)
    (removeFrom : Option String) : Except RotErr SecretState :=
  match removeFrom with
  | none => .error .invalidParam
  | some rf =>
    if keyMem st moveTo = false then .error .versionNotFound
    else if (st.versions.any (fun p => p.1 == rf && hasStage p.2 stage)) = false then
      .error .invalidStagingLabel
    else
      .ok ⟨st.versions.map (moveStageFun stage moveTo rf)⟩

/-- `create_secret(service, arn, token)`: if the token's version already
carries `AWSPENDING`, return with no write; otherwise read the
`AWSCURRENT` payload, replace its password with the freshly generated
one (`newPass`), and put it as a new `AWSPENDING` version under `token`. -/
def create_secret (token newPass : String) (st : SecretState) : Except RotErr SecretState :=
  match getByTokenStage st token AWSPENDING with
  | some _ => .ok st
  | none =>
    match get_secret_dict st AWSCURRENT none with
    | none => .error .resourceNotFound
    | some cur => put_secret_value st token { cur with password := newPass }

/-- `set_secret(service, rds_client, arn, token)`: read the current and
pending payloads, then ask RDS to apply the pending password.  `applyOk`
is the outcome of the external `modify_db_instance` call.  No store
write occurs on any path. -/
def set_secret (applyOk : Bool) (token : String) (st : SecretState) : Except RotErr SecretState :=
  match get_secret_dict st AWSCURRENT none with
  | none => .error .resourceNotFound
  | some _ =>
    match get_secret_dict st AWSPENDING (some token) with
    | none => .error .resourceNotFound
    | some _ => if applyOk then .ok st else .error .applyFailed

/-- `test_secret(service, arn, token)`: read the pending payload and
probe the database with it.  `connectOk` is the outcome of
`psycopg2.connect`, `queryRaises` whether the cursor/`SELECT 1` path
raises, `result` the fetched value.  No store write occurs on any path. -/
def test_secret (connectOk queryRaises : Bool) (result : Int) (token : String)
    (st : SecretState) : Except RotErr SecretState :=
  match get_secret_dict st AWSPENDING (some token) with
  | none => .error .resourceNotFound
  | some _ =>
    if connectOk = false then .error .connectError
    else if queryRaises then .error .queryError
    else if result = 1 then .ok st
    else .error .testFailed

/-- The connection lifecycle of `test_secret`'s probe, traced explicitly.
Returns the step outcome together with (connection opened, connection
closed).  In the source, `cursor.close(); conn.close()` run after a
successful fetch and before the sentinel comparison; an exception from
the cursor/query path jumps to the `except` block with no `finally`. -/
def test_probe (connectOk queryRaises : Bool) (result : Int) : Except RotErr Unit × Bool × Bool :=
  if connectOk = false then (.error .connectError, false, false)
  else if queryRaises then (.error .queryError, true, false)
  else if result = 1 then (.ok (), true, true)
  else (.error .testFailed, true, true)

/-- `finish_secret(service, arn, token)`: scan `VersionIdsToStages` for
the first version carrying `AWSCURRENT`; if it is the token's version,
return with no write; otherwise move `AWSCURRENT` onto the token's
version, removing it from the previously current one.  If no version
carries `AWSCURRENT`, `current_version` stays `None` and the update call
fails parameter validation. -/
def finish_secret (token : String) (st : SecretState) : Except RotErr SecretState :=
  match findStage st AWSCURRENT with
  | some cur =>
    if cur.1 = token then .ok st
    else update_secret_version_stage st AWSCURRENT token (some cur.1)
  | none => update_secret_version_stage st AWSCURRENT token none

/-- `lambda_handler(event, context)`: the top-of-handler check is
`if 'AWSCURRENT' not in versions`, i.e. membership of the literal string
`"AWSCURRENT"` among the KEYS of `VersionIdsToStages` (the version ids),
then dispatch on the step string. -/
def lambda_handler (step token newPass : String) (applyOk connectOk queryRaises : Bool)
    (result : Int) (st : SecretState) : Except RotErr SecretState :=
  if keyMem st "AWSCURRENT" = false then .error .noCurrentVersion
  else if step = "createSecret" then create_secret token newPass st
  else if step = "setSecret" then set_secret applyOk token st
  else if step = "testSecret" then test_secret connectOk queryRaises result token st
  else if step = "finishSecret" then finish_secret token st
  else .error .invalidStep

/-- One orchestrator invocation of the handler: the step name together
with the token and the external-world outcomes that invocation sees. -/
inductive StepCall where
  | create (token newPass : String)
  | set (token : String) (applyOk : Bool)
  | test (token : String) (connectOk queryRaises : Bool) (result : Int)
  | finish (token : String)
deriving DecidableEq, Repr

/-- Execute one step call through `lambda_handler`. -/
def execStep : StepCall → SecretState → Except RotErr SecretState
  | .create t np, st => lambda_handler "createSecret" t np true true false 1 st
  | .set t ok, st => lambda_handler "setSecret" t "" ok true false 1 st
  | .test t c q r, st => lambda_handler "testSecret" t "" true c q r st
  | .finish t, st => lambda_handler "finishSecret" t "" true true false 1 st

/-- The store state after one step call: every write in the source is the
final store operation of its step function and the store's operations are
atomic, so a failed step leaves the state unchanged. -/
def stepState (c : StepCall) (st : SecretState) : SecretState :=
  match execStep c st with
  | .ok s => s
  | .error _ => st

/-- The store state after a sequence of handler invocations. -/
def runSteps (cs : List StepCall) (st : SecretState) : SecretState :=
  cs.foldl (fun s c => stepState c s) st

/-- Number of versions carrying a given stage label. -/
def stageCount (st : SecretState) (s : String) : Nat :=
  st.versions.countP (fun p => hasStage p.2 s)

/-- The version-id-to-stage-labels mapping (`VersionIdsToStages`). -/
def stageMap (st : SecretState) : List (String × List String) :=
  st.versions.map (fun p => (p.1, p.2.stages))

/-- Store well-formedness: version ids are distinct and each of the two
rotation labels is on at most one version (label uniqueness is owned by
the store). -/
def WF (st : SecretState) : Prop :=
  (st.versions.map Prod.fst).Nodup ∧ stageCount st AWSCURRENT ≤ 1 ∧ stageCount st AWSPENDING ≤ 1

/-- Is a step call a Test invocation? -/
def isTest : StepCall → Bool
  | .test _ _ _ _ => true
  | _ => false

/-- The 70-character alphabet of `generate_password`:
`string.ascii_letters + string.digits + "!@#$%^&*"`. -/
def pw_characters : List Char :=
  "abcdefghijklmnopqrstuvwxyzABCDEFGHIJKLMNOPQRSTUVWXYZ0123456789!@#$%^&*".toList

/-- ASCII lowercase test (`str.islower` on this alphabet). -/
def isLowerA (c : Char) : Bool := 'a' ≤ c && c ≤ 'z'

/-- ASCII uppercase test (`str.isupper` on this alphabet). -/
def isUpperA (c : Char) : Bool := 'A' ≤ c && c ≤ 'Z'

/-- ASCII digit test (`str.isdigit` on this alphabet). -/
def isDigitA (c : Char) : Bool := '0' ≤ c && c ≤ '9'

/-- Membership in the symbol class `"!@#$%^&*"`. -/
def isSymbolA (c : Char) : Bool := "!@#$%^&*".toList.contains c

/-- The complexity predicate of `generate_password`: at least one
character from each of the four classes. -/
def password_complex (p : String) : Bool :=
  p.toList.any isLowerA && p.toList.any isUpperA &&
  p.toList.any isDigitA && p.toList.any isSymbolA

/-- One sampled candidate: `''.join(random.choice(characters) for _ in
range(length))`, with the random choices supplied by `rng` consumed
sequentially across attempts. -/
def sample_password (rng : Nat → Nat) (attempt length : Nat) : String :=
  String.mk ((List.range length).map
    (fun i => pw_characters.getD (rng (attempt * length + i) % pw_characters.length) 'a'))

/-- `generate_password(length=32)`: sample, test the complexity
predicate, and recurse on failure.  The source recursion has no retry
cap; `fuel` bounds the embedding, and returning `none` at every fuel
bound models the unbounded regeneration. -/
def generate_password (rng : Nat → Nat) (length : Nat) : Nat → Nat → Option String
  | 0, _ => none
  | fuel + 1, attempt =>
    let p := sample_password rng attempt length
    if password_complex p then some p else generate_password rng length fuel (attempt + 1)

/-- A sampler all of whose choices are index 0, i.e. the letter `a`. -/
def constRng : Nat → Nat := fun _ => 0

/-- A sampler whose first attempt yields `A`, `0`, `!` then `a`s. -/
def goodRng : Nat → Nat := fun i => if i = 0 then 26 else if i = 1 then 52 else if i = 2 then 62 else 0

/-- A concrete credential payload used by the witness states. -/
def pvW : Payload := ⟨"db.example.com", "5432", "appdb", "app", "old-pass"⟩

/-- A secret whose (UUID-named) version `v1...` is staged `AWSCURRENT`. -/
def stA : SecretState := ⟨[("7b9d2c3e-1f04-4c1c-9a55-0000000000aa", ⟨pvW, ["AWSCURRENT"]⟩)]⟩

/-- A secret with no `AWSCURRENT`-staged version, whose only version id
is the literal string `"AWSCURRENT"`, staged `AWSPENDING`. -/
def stB : SecretState := ⟨[("AWSCURRENT", ⟨pvW, ["AWSPENDING"]⟩)]⟩

/-- A two-version secret: `v1` staged current, `v2` staged pending. -/
def stC : SecretState := ⟨[("v1", ⟨pvW, ["AWSCURRENT"]⟩), ("v2", ⟨{ pvW with password := "new-pass" }, ["AWSPENDING"]⟩)]⟩

/-! ## Helper lemmas -/

theorem countP_map_pointwise {α α' : Type} (l : List α) (f : α → α') (p : α' → Bool)
    (q : α → Bool) (h : ∀ a ∈ l, p (f a) = q a) : (l.map f).countP p = l.countP q := by
  rw [List.countP_map]
  exact List.countP_congr (fun a ha => by rw [Function.comp_apply, h a ha])

theorem find?_unique_aux {α : Type} (p : α → Bool) (l : List α) (e : α)
    (hfind : l.find? p = some e) (hcount : l.countP p ≤ 1) :
    ∀ x ∈ l, x ≠ e → p x = false := by
  induction l with
  | nil => simp at hfind
  | cons a l ih =>
    by_cases ha : p a = true
    · rw [List.find?_cons_of_pos _ ha] at hfind
      injection hfind with he
      subst he
      have hc : l.countP p = 0 := by
        rw [List.countP_cons, if_pos ha] at hcount
        omega
      intro x hx hxe
      rcases List.mem_cons.mp hx with h | h
      · exact absurd h hxe
      · exact Bool.eq_false_iff.mpr (List.countP_eq_zero.mp hc x h)
    · rw [List.find?_cons_of_neg _ ha] at hfind
      have hcount' : l.countP p ≤ 1 := by
        rw [List.countP_cons, if_neg ha] at hcount
        omega
      intro x hx hxe
      rcases List.mem_cons.mp hx with h | h
      · subst h
        exact Bool.eq_false_iff.mpr ha
      · exact ih hfind hcount' x h hxe

theorem test_secret_frame (c q : Bool) (r : Int) (t : String) (st : SecretState) :
    test_secret c q r t st = .ok st ∨ ∃ e, test_secret c q r t st = .error e := by
  unfold test_secret
  cases get_secret_dict st AWSPENDING (some t) with
  | none => exact .inr ⟨_, rfl⟩
  | some pl =>
    cases c with
    | false => exact .inr ⟨_, rfl⟩
    | true =>
      cases q with
      | true => exact .inr ⟨_, rfl⟩
      | false =>
        by_cases hr : r = 1
        · simp [hr]
        · simp [hr]

theorem set_secret_frame (ok : Bool) (t : String) (st : SecretState) :
    set_secret ok t st = .ok st ∨ ∃ e, set_secret ok t st = .error e := by
  unfold set_secret
  cases get_secret_dict st AWSCURRENT none with
  | none => exact .inr ⟨_, rfl⟩
  | some _ =>
    cases get_secret_dict st AWSPENDING (some t) with
    | none => exact .inr ⟨_, rfl⟩
    | some _ =>
      cases ok with
      | true => exact .inl rfl
      | false => exact .inr ⟨_, rfl⟩

theorem stepState_eq_of_ok {c : StepCall} {st s' : SecretState} (h : execStep c st = .ok s') :
    stepState c st = s' := by
  unfold stepState
  rw [h]

theorem stepState_eq_of_error {c : StepCall} {st : SecretState} {e : RotErr}
    (h : execStep c st = .error e) : stepState c st = st := by
  unfold stepState
  rw [h]

theorem execStep_test (t : String) (cO qR : Bool) (r : Int) (st : SecretState) :
    execStep (.test t cO qR r) st = .ok st ∨ ∃ e, execStep (.test t cO qR r) st = .error e := by
  simp only [execStep]
  unfold lambda_handler
  by_cases hk : keyMem st "AWSCURRENT" = false
  · rw [if_pos hk]
    exact .inr ⟨_, rfl⟩
  · rw [if_neg hk, if_neg (by decide), if_neg (by decide), if_pos rfl]
    exact test_secret_frame cO qR r t st

theorem stepState_of_isTest (c : StepCall) (st : SecretState) (h : isTest c = true) :
    stepState c st = st := by
  cases c with
  | create t np => simp [isTest] at h
  | set t ok => simp [isTest] at h
  | finish t => simp [isTest] at h
  | test t cO qR r =>
    rcases execStep_test t cO qR r st with h1 | ⟨e, h1⟩
    · exact stepState_eq_of_ok h1
    · exact stepState_eq_of_error h1

theorem runSteps_cons (c : StepCall) (cs : List StepCall) (st : SecretState) :
    runSteps (c :: cs) st = runSteps cs (stepState c st) := rfl

/-! ## Claims about the Test step and the probe connection -/

/-- Claim C6: the Test step never mutates any stage label: after any number
of test invocations through the handler, whatever their outcomes, the
store state (and in particular the version-to-stage-label mapping) is
unchanged from before the first invocation. -/
theorem test_steps_never_mutate_stages (cs : List StepCall) (st : SecretState)
    (h : ∀ c ∈ cs, isTest c = true) :
    runSteps cs st = st ∧ stageMap (runSteps cs st) = stageMap st := by
  have main : runSteps cs st = st := by
    induction cs generalizing st with
    | nil => rfl
    | cons c cs ih =>
      rw [runSteps_cons, stepState_of_isTest c st (h c (List.mem_cons_self c cs))]
      exact ih st (fun d hd => h d (List.mem_cons_of_mem c hd))
  exact ⟨main, by rw [main]⟩

theorem test_steps_never_mutate_stages_witness :
    runSteps [StepCall.test "v2" true false 1, StepCall.test "v2" false true 0,
      StepCall.test "v2" true true 7] stC = stC ∧
    stageMap (runSteps [StepCall.test "v2" true false 1, StepCall.test "v2" false true 0,
      StepCall.test "v2" true true 7] stC) = stageMap stC :=
  test_steps_never_mutate_stages _ stC (by decide)

/-- Claim C7 (code bug evidence): in `test_secret`, when the connection
opens and the probe query then raises, the function re-raises without
ever reaching `conn.close()` (there is no `finally`), so the probe
connection is NOT closed on that exit path; on the sentinel-mismatch
path the close calls do run (they precede the comparison). -/
theorem test_probe_leaks_connection :
    (test_probe true true 0).2.1 = true ∧ (test_probe true true 0).2.2 = false ∧
    (test_probe true true 0).1 = .error .queryError ∧
    (test_probe true false 0).2.2 = true ∧ (test_probe true false 0).1 = .error .testFailed :=
  ⟨rfl, rfl, rfl, rfl, rfl⟩

/-- Claim C10 (code bug evidence): the top-of-handler check tests whether
the literal string AWSCURRENT is one of the version ids (the keys of
VersionIdsToStages), not whether some version carries the AWSCURRENT
stage.  On a secret whose only version has a normal UUID-style id staged
AWSCURRENT the handler raises its no-current-version error for every
step; on a secret with no AWSCURRENT-staged version at all, whose
version id happens to be the string AWSCURRENT, the handler dispatches
and the step runs to completion. -/
theorem lambda_handler_checks_ids_not_stages :
    stageCount stA AWSCURRENT = 1 ∧
    lambda_handler "setSecret" "7b9d2c3e-1f04-4c1c-9a55-0000000000aa" "" true true false 1 stA
      = .error .noCurrentVersion ∧
    lambda_handler "finishSecret" "7b9d2c3e-1f04-4c1c-9a55-0000000000aa" "" true true false 1 stA
      = .error .noCurrentVersion ∧
    stageCount stB AWSCURRENT = 0 ∧
    lambda_handler "testSecret" "AWSCURRENT" "" true true false 1 stB = .ok stB :=
  ⟨rfl, rfl, rfl, rfl, rfl⟩

/-! ## Claims about password generation -/

theorem sample_password_constRng (attempt : Nat) :
    sample_password constRng attempt 32 = String.mk (List.replicate 32 'a') := by
  unfold sample_password
  have h : (fun i => pw_characters.getD (constRng (attempt * 32 + i) % pw_characters.length) 'a')
      = fun (_ : Nat) => 'a' := by
    funext i
    rfl
  rw [h, List.map_const', List.length_range]

theorem generate_password_constRng_none (n : Nat) :
    ∀ attempt, generate_password constRng 32 n attempt = none := by
  induction n with
  | zero => intro _; rfl
  | succ n ih =>
    intro attempt
    have hs := sample_password_constRng attempt
    have hbad : password_complex (String.mk (List.replicate 32 'a')) = false := by decide
    simp only [generate_password, hs, hbad, Bool.false_eq_true, if_false]
    exact ih (attempt + 1)

/-- Claim C8 counterexample: `generate_password` has no retry cap at all.
On a sampler all of whose samples fail the complexity predicate (every
choice is the letter a) there is no recursion depth at which the
function stops regenerating: it neither succeeds nor fails with a
PolicyUnsatisfiable-style error at any bound, which is exactly the
unbounded recursive regeneration of the source. -/
theorem generate_password_no_retry_cap :
    (∃ n, generate_password constRng 32 n 0 ≠ none) ↔ False :=
  ⟨fun h => h.elim (fun n hn => hn (generate_password_constRng_none n 0)), False.elim⟩

/-- Claim C8 (amended): password generation is NOT bounded.  When a
sampled string fails the four-class complexity predicate the source
regenerates by unbounded recursion: on a sampler that never satisfies
the predicate it never returns at any recursion bound (and in
particular never fails with a PolicyUnsatisfiable error), and whenever
it does return, the result is a sample satisfying the predicate. -/
theorem generate_password_unbounded_retry :
    (∀ n attempt, generate_password constRng 32 n attempt = none) ∧
    (∀ rng len fuel attempt p, generate_password rng len fuel attempt = some p →
      password_complex p = true) := by
  constructor
  · exact fun n attempt => generate_password_constRng_none n attempt
  · intro rng len fuel
    induction fuel with
    | zero => intro attempt p h; exact absurd h (by simp [generate_password])
    | succ n ih =>
      intro attempt p h
      simp only [generate_password] at h
      by_cases hc : password_complex (sample_password rng attempt len) = true
      · rw [if_pos hc] at h
        injection h with he
        rw [← he]
        exact hc
      · rw [if_neg hc] at h
        exact ih (attempt + 1) p h

theorem generate_password_unbounded_retry_witness :
    password_complex "A0!aaaaaaaaaaaaaaaaaaaaaaaaaaaaa" = true :=
  generate_password_unbounded_retry.2 goodRng 32 1 0 "A0!aaaaaaaaaaaaaaaaaaaaaaaaaaaaa" (by rfl)

/-- Claim C9: whenever `generate_password` at length 32 returns a
password, that password has length 32 and contains at least one
lowercase letter, one uppercase letter, one digit and one symbol from
the symbol class. -/
theorem generate_password_policy (rng : Nat → Nat) (fuel attempt : Nat) (p : String)
    (h : generate_password rng 32 fuel attempt = some p) :
    p.length = 32 ∧ p.toList.any isLowerA = true ∧ p.toList.any isUpperA = true ∧
    p.toList.any isDigitA = true ∧ p.toList.any isSymbolA = true := by
  induction fuel generalizing attempt with
  | zero => exact absurd h (by simp [generate_password])
  | succ n ih =>
    simp only [generate_password] at h
    by_cases hc : password_complex (sample_password rng attempt 32) = true
    · rw [if_pos hc] at h
      injection h with he
      subst he
      refine ⟨?_, ?_⟩
      · show (String.mk ((List.range 32).map _)).length = 32
        simp [String.length, List.length_map, List.length_range]
      · unfold password_complex at hc
        simp only [Bool.and_eq_true] at hc
        exact ⟨hc.1.1.1, hc.1.1.2, hc.1.2, hc.2⟩
    · rw [if_neg hc] at h
      exact ih (attempt + 1) h

theorem generate_password_policy_witness :
    ("A0!aaaaaaaaaaaaaaaaaaaaaaaaaaaaa".length = 32 ∧
    "A0!aaaaaaaaaaaaaaaaaaaaaaaaaaaaa".toList.any isLowerA = true ∧
    "A0!aaaaaaaaaaaaaaaaaaaaaaaaaaaaa".toList.any isUpperA = true ∧
    "A0!aaaaaaaaaaaaaaaaaaaaaaaaaaaaa".toList.any isDigitA = true ∧
    "A0!aaaaaaaaaaaaaaaaaaaaaaaaaaaaa".toList.any isSymbolA = true) :=
  generate_password_policy goodRng 1 0 "A0!aaaaaaaaaaaaaaaaaaaaaaaaaaaaa" (by rfl)

/-! ## Stage-label bookkeeping lemmas -/

theorem contains_filter_ne (ls : List String) (s t : String) (hne : s ≠ t) :
    (ls.filter (fun l => l != t)).contains s = ls.contains s := by
  simp [List.mem_filter, hne]

theorem contains_filter_self (ls : List String) (t : String) :
    (ls.filter (fun l => l != t)).contains t = false := by
  simp [List.mem_filter]

theorem contains_addStage_other (ls : List String) (s t : String) (hne : s ≠ t) :
    (addStage ls t).contains s = ls.contains s := by
  unfold addStage
  split
  · rfl
  · simp [List.mem_append, hne]

theorem contains_addStage_self (ls : List String) (t : String) :
    (addStage ls t).contains t = true := by
  unfold addStage
  split
  · assumption
  · simp [List.mem_append]

theorem stripStage_keys (s : String) (st : SecretState) :
    (stripStage s st).versions.map Prod.fst = st.versions.map Prod.fst := by
  unfold stripStage
  rw [List.map_map]
  rfl

theorem stripStage_count_self (s : String) (st : SecretState) :
    stageCount (stripStage s st) s = 0 := by
  unfold stageCount stripStage
  rw [List.countP_map, List.countP_eq_zero]
  intro a _
  simp only [Function.comp_apply, hasStage]
  rw [contains_filter_self]
  simp

theorem stripStage_count_other (s t : String) (st : SecretState) (hne : t ≠ s) :
    stageCount (stripStage s st) t = stageCount st t := by
  unfold stageCount stripStage
  rw [List.countP_map]
  refine List.countP_congr (fun x _ => ?_)
  simp only [Function.comp_apply, hasStage]
  rw [contains_filter_ne _ _ _ hne]

theorem put_result_pending_count (st : SecretState) (token : String) (nv : Version)
    (hnv : hasStage nv AWSPENDING = true) :
    stageCount ⟨(stripStage AWSPENDING st).versions ++ [(token, nv)]⟩ AWSPENDING = 1 := by
  unfold stageCount
  rw [List.countP_append]
  have h0 : (stripStage AWSPENDING st).versions.countP (fun p => hasStage p.2 AWSPENDING) = 0 :=
    stripStage_count_self AWSPENDING st
  rw [h0, List.countP_cons, if_pos hnv]
  rfl

/-! ## Create-step lemmas and claims -/

theorem put_fresh (st : SecretState) (token : String) (pl : Payload)
    (hfresh : ∀ x ∈ st.versions, x.1 ≠ token) :
    put_secret_value st token pl
      = .ok ⟨(stripStage AWSPENDING st).versions ++ [(token, ⟨pl, [AWSPENDING]⟩)]⟩ := by
  have h1 : st.versions.any (fun p => p.1 == token && p.2.payload != pl) = false := by
    rw [List.any_eq_false]
    intro x hx
    simp [hfresh x hx]
  have h2 : keyMem st token = false := by
    unfold keyMem
    rw [List.any_eq_false]
    intro x hx
    simp [hfresh x hx]
  simp only [put_secret_value, h1, h2, Bool.false_eq_true, if_false]

theorem create_fresh_aux (token pass : String) (st : SecretState) (vid : String) (cv : Version)
    (hfresh : ∀ x ∈ st.versions, x.1 ≠ token)
    (hcur : findStage st AWSCURRENT = some (vid, cv)) :
    create_secret token pass st
      = .ok ⟨(stripStage AWSPENDING st).versions
          ++ [(token, ⟨{ cv.payload with password := pass }, [AWSPENDING]⟩)]⟩ := by
  have hnone : st.versions.find? (fun p => p.1 == token && hasStage p.2 AWSPENDING) = none :=
    List.find?_eq_none.mpr (fun x hx => by simp [hfresh x hx])
  have hget : getByTokenStage st token AWSPENDING = none := by
    unfold getByTokenStage
    rw [hnone]
    rfl
  have hdict : get_secret_dict st AWSCURRENT none = some cv.payload := by
    show (findStage st AWSCURRENT).map (fun p => p.2.payload) = some cv.payload
    rw [hcur]
    rfl
  simp only [create_secret, hget, hdict]
  exact put_fresh st token _ hfresh

/-- Claim C5: with no pending version for the token (the token is a fresh
version id), Create stores a new version under the token, staged
`AWSPENDING`, whose payload is the `AWSCURRENT` payload with only the
password field replaced by the freshly generated password: host, port,
database name and username are identical to the current payload. -/
theorem create_secret_fresh_payload (token pass : String) (st : SecretState) (vid : String)
    (cv : Version) (hfresh : ∀ x ∈ st.versions, x.1 ≠ token)
    (hcur : findStage st AWSCURRENT = some (vid, cv)) :
    ∃ st1 nv, create_secret token pass st = .ok st1 ∧
      st1.versions = (stripStage AWSPENDING st).versions ++ [(token, nv)] ∧
      nv.stages = [AWSPENDING] ∧
      nv.payload.host = cv.payload.host ∧ nv.payload.port = cv.payload.port ∧
      nv.payload.dbname = cv.payload.dbname ∧ nv.payload.username = cv.payload.username ∧
      nv.payload.password = pass :=
  ⟨_, ⟨{ cv.payload with password := pass }, [AWSPENDING]⟩,
    create_fresh_aux token pass st vid cv hfresh hcur, rfl, rfl, rfl, rfl, rfl, rfl, rfl⟩

theorem create_secret_fresh_payload_witness :
    ∃ st1 nv, create_secret "t1" "N3w!pass" stA = .ok st1 ∧
      st1.versions = (stripStage AWSPENDING stA).versions ++ [("t1", nv)] ∧
      nv.stages = [AWSPENDING] ∧
      nv.payload.host = pvW.host ∧ nv.payload.port = pvW.port ∧
      nv.payload.dbname = pvW.dbname ∧ nv.payload.username = pvW.username ∧
      nv.payload.password = "N3w!pass" :=
  create_secret_fresh_payload "t1" "N3w!pass" stA "7b9d2c3e-1f04-4c1c-9a55-0000000000aa"
    ⟨pvW, ["AWSCURRENT"]⟩ (by decide) (by decide)

/-- Claim C2: on a secret with an `AWSCURRENT` version, invoking Create
twice with the same token leaves exactly one `AWSPENDING` version: the
second invocation finds the pending version for the token and returns
the state unchanged, regardless of the password the second call would
have generated. -/
theorem create_secret_idempotent (token pass pass2 : String) (st : SecretState)
    (hwf : WF st) (hcur : (findStage st AWSCURRENT).isSome = true)
    (htok : ∀ x ∈ st.versions, x.1 = token → hasStage x.2 AWSPENDING = true) :
    ∃ st1, create_secret token pass st = .ok st1 ∧
      create_secret token pass2 st1 = .ok st1 ∧ stageCount st1 AWSPENDING = 1 := by
  cases hget : getByTokenStage st token AWSPENDING with
  | some v =>
    refine ⟨st, ?_, ?_, ?_⟩
    · simp only [create_secret, hget]
    · simp only [create_secret, hget]
    · obtain ⟨pr, hpr, hprv⟩ := Option.map_eq_some'.mp hget
      have hmem := List.mem_of_find?_eq_some hpr
      have hp := List.find?_some hpr
      have hpos : 0 < stageCount st AWSPENDING :=
        List.countP_pos_iff.mpr ⟨pr, hmem, (Bool.and_eq_true_iff.mp hp).2⟩
      have hle := hwf.2.2
      omega
  | none =>
    have hfind_none : st.versions.find? (fun p => p.1 == token && hasStage p.2 AWSPENDING) = none := by
      unfold getByTokenStage at hget
      exact Option.map_eq_none'.mp hget
    have hfresh : ∀ x ∈ st.versions, x.1 ≠ token := by
      intro x hx hxe
      have hps := htok x hx hxe
      have hnp := List.find?_eq_none.mp hfind_none x hx
      simp [hxe, hps] at hnp
    obtain ⟨pr, hfs⟩ := Option.isSome_iff_exists.mp hcur
    obtain ⟨vid, cv⟩ := pr
    have heq := create_fresh_aux token pass st vid cv hfresh hfs
    refine ⟨_, heq, ?_, ?_⟩
    · have hnone1 : (stripStage AWSPENDING st).versions.find?
          (fun p => p.1 == token && hasStage p.2 AWSPENDING) = none := by
        apply List.find?_eq_none.mpr
        intro x hx
        unfold stripStage at hx
        obtain ⟨y, hy, hyx⟩ := List.mem_map.mp hx
        subst hyx
        simp [hfresh y hy]
      have hsingle : [(token, (⟨{ cv.payload with password := pass }, [AWSPENDING]⟩ : Version))].find?
          (fun p => p.1 == token && hasStage p.2 AWSPENDING) = some (token, ⟨{ cv.payload with password := pass }, [AWSPENDING]⟩) :=
        List.find?_cons_of_pos _ (by simp [hasStage])
      have hget1 : getByTokenStage
          ⟨(stripStage AWSPENDING st).versions
            ++ [(token, ⟨{ cv.payload with password := pass }, [AWSPENDING]⟩)]⟩ token AWSPENDING
          = some ⟨{ cv.payload with password := pass }, [AWSPENDING]⟩ := by
        unfold getByTokenStage
        rw [List.find?_append, hnone1, Option.none_or, hsingle]
        rfl
      simp only [create_secret, hget1]
    · exact put_result_pending_count st token _ rfl

theorem create_secret_idempotent_witness :
    ∃ st1, create_secret "v2" "pass-a" stC = .ok st1 ∧
      create_secret "v2" "pass-b" st1 = .ok st1 ∧ stageCount st1 AWSPENDING = 1 :=
  create_secret_idempotent "v2" "pass-a" "pass-b" stC
    ⟨by decide, by decide, by decide⟩ (by decide) (by decide)

/-! ## Lemmas about the per-entry stage updates -/

theorem attachFun_fst (s m : String) (x : String × Version) :
    (attachStageFun s m x).1 = x.1 := by
  unfold attachStageFun
  by_cases h : (x.1 == m) = true
  · rw [if_pos h]
  · rw [if_neg h]

theorem moveFun_fst (s m r : String) (x : String × Version) :
    (moveStageFun s m r x).1 = x.1 := by
  unfold moveStageFun
  by_cases h1 : (x.1 == m) = true
  · rw [if_pos h1]
  · rw [if_neg h1]
    by_cases h2 : (x.1 == r) = true
    · rw [if_pos h2]
    · rw [if_neg h2]

theorem attachFun_keys (s m : String) (l : List (String × Version)) :
    (l.map (attachStageFun s m)).map Prod.fst = l.map Prod.fst := by
  rw [List.map_map]
  exact List.map_congr_left (fun x _ => attachFun_fst s m x)

theorem moveFun_keys (s m r : String) (l : List (String × Version)) :
    (l.map (moveStageFun s m r)).map Prod.fst = l.map Prod.fst := by
  rw [List.map_map]
  exact List.map_congr_left (fun x _ => moveFun_fst s m r x)

theorem hasStage_attachFun_self (s m : String) (x : String × Version) :
    hasStage (attachStageFun s m x).2 s
      = (if x.1 == m then true else hasStage x.2 s) := by
  unfold attachStageFun hasStage
  by_cases h : (x.1 == m) = true
  · rw [if_pos h, if_pos h]
    exact contains_addStage_self _ _
  · rw [if_neg h, if_neg h]

theorem hasStage_attachFun_other (s t m : String) (hts : t ≠ s) (x : String × Version) :
    hasStage (attachStageFun s m x).2 t = hasStage x.2 t := by
  unfold attachStageFun hasStage
  by_cases h : (x.1 == m) = true
  · rw [if_pos h]
    exact contains_addStage_other _ _ _ hts
  · rw [if_neg h]

theorem hasStage_moveFun_self (s m r : String) (x : String × Version) :
    hasStage (moveStageFun s m r x).2 s
      = (if x.1 == m then true else if x.1 == r then false else hasStage x.2 s) := by
  unfold moveStageFun hasStage
  by_cases h1 : (x.1 == m) = true
  · rw [if_pos h1, if_pos h1]
    exact contains_addStage_self _ _
  · rw [if_neg h1, if_neg h1]
    by_cases h2 : (x.1 == r) = true
    · rw [if_pos h2, if_pos h2]
      exact contains_filter_self _ _
    · rw [if_neg h2, if_neg h2]

theorem hasStage_moveFun_other (s t m r : String) (hts : t ≠ s) (x : String × Version) :
    hasStage (moveStageFun s m r x).2 t = hasStage x.2 t := by
  unfold moveStageFun hasStage
  by_cases h1 : (x.1 == m) = true
  · rw [if_pos h1]
    exact contains_addStage_other _ _ _ hts
  · rw [if_neg h1]
    by_cases h2 : (x.1 == r) = true
    · rw [if_pos h2]
      exact contains_filter_ne _ _ _ hts
    · rw [if_neg h2]

theorem countP_key_eq_one (l : List (String × Version)) (token : String)
    (hnd : (l.map Prod.fst).Nodup) (hmem : token ∈ l.map Prod.fst) :
    l.countP (fun p => p.1 == token) = 1 := by
  have h1 : l.countP (fun p => p.1 == token)
      = (l.map Prod.fst).countP (fun k => k == token) := by
    rw [List.countP_map]
    rfl
  rw [h1, ← List.count_eq_countP]
  exact List.count_eq_one_of_mem hnd hmem

theorem keyMem_mem_keys (st : SecretState) (k : String) (h : keyMem st k = true) :
    k ∈ st.versions.map Prod.fst := by
  unfold keyMem at h
  rw [List.any_eq_true] at h
  obtain ⟨x, hx, hxe⟩ := h
  rw [List.mem_map]
  exact ⟨x, hx, by simpa using hxe⟩

/-! ## The Finish step: characterization -/

theorem update_ok_cases (st : SecretState) (stage moveTo : String) (rfOpt : Option String)
    (st' : SecretState) (h : update_secret_version_stage st stage moveTo rfOpt = .ok st') :
    ∃ rv, rfOpt = some rv ∧ keyMem st moveTo = true ∧
      st.versions.any (fun p => p.1 == rv && hasStage p.2 stage) = true ∧
      st' = ⟨st.versions.map (moveStageFun stage moveTo rv)⟩ := by
  cases rfOpt with
  | none => exact absurd h (by simp [update_secret_version_stage])
  | some rv =>
    simp only [update_secret_version_stage] at h
    by_cases hk : keyMem st moveTo = false
    · rw [if_pos hk] at h
      cases h
    · rw [if_neg hk] at h
      by_cases ha : (st.versions.any (fun p => p.1 == rv && hasStage p.2 stage)) = false
      · rw [if_pos ha] at h
        cases h
      · rw [if_neg ha] at h
        injection h with h2
        refine ⟨rv, rfl, ?_, ?_, h2.symm⟩
        · cases hkm : keyMem st moveTo
          · exact absurd hkm hk
          · rfl
        · cases ham : st.versions.any (fun p => p.1 == rv && hasStage p.2 stage)
          · exact absurd ham ha
          · rfl

theorem finish_move_eq (token vid : String) (cv : Version) (st : SecretState)
    (hfind : findStage st AWSCURRENT = some (vid, cv)) (hne : vid ≠ token)
    (htok : keyMem st token = true) :
    finish_secret token st = .ok ⟨st.versions.map (moveStageFun AWSCURRENT token vid)⟩ := by
  have hfind' : st.versions.find? (fun p => hasStage p.2 AWSCURRENT) = some (vid, cv) := hfind
  have hany : st.versions.any (fun p => p.1 == vid && hasStage p.2 AWSCURRENT) = true := by
    rw [List.any_eq_true]
    exact ⟨(vid, cv), List.mem_of_find?_eq_some hfind', by simp [List.find?_some hfind']⟩
  simp only [finish_secret, hfind]
  rw [if_neg hne]
  simp only [update_secret_version_stage]
  rw [if_neg (by simp [htok]), if_neg (by simp [hany])]

theorem finish_ok_cases (token : String) (st st' : SecretState)
    (h : finish_secret token st = .ok st') :
    (∃ cv, findStage st AWSCURRENT = some (token, cv) ∧ st' = st) ∨
    (∃ vid cv, findStage st AWSCURRENT = some (vid, cv) ∧ vid ≠ token ∧
      keyMem st token = true ∧ st' = ⟨st.versions.map (moveStageFun AWSCURRENT token vid)⟩) := by
  cases hf : findStage st AWSCURRENT with
  | none =>
    simp only [finish_secret, hf] at h
    exact absurd h (by simp [update_secret_version_stage])
  | some pr =>
    obtain ⟨vid, cv⟩ := pr
    simp only [finish_secret, hf] at h
    by_cases hv : vid = token
    · subst hv
      rw [if_pos rfl] at h
      injection h with h2
      exact .inl ⟨cv, rfl, h2.symm⟩
    · rw [if_neg hv] at h
      obtain ⟨rv, hrv, hk, _, hst⟩ := update_ok_cases st AWSCURRENT token (some vid) st' h
      injection hrv with hrv2
      subst hrv2
      exact .inr ⟨vid, cv, rfl, hv, hk, hst⟩

theorem move_current_count (st : SecretState) (token vid : String) (cv : Version)
    (hnd : (st.versions.map Prod.fst).Nodup)
    (hle : stageCount st AWSCURRENT ≤ 1)
    (hfind' : st.versions.find? (fun p => hasStage p.2 AWSCURRENT) = some (vid, cv))
    (hmemtok : token ∈ st.versions.map Prod.fst) :
    stageCount ⟨st.versions.map (moveStageFun AWSCURRENT token vid)⟩ AWSCURRENT = 1 := by
  have hunique := find?_unique_aux _ _ _ hfind' hle
  have hpt : ∀ x ∈ st.versions,
      hasStage (moveStageFun AWSCURRENT token vid x).2 AWSCURRENT = (x.1 == token) := by
    intro x hx
    rw [hasStage_moveFun_self]
    by_cases h1 : (x.1 == token) = true
    · rw [if_pos h1, h1]
    · rw [if_neg h1]
      by_cases h2 : (x.1 == vid) = true
      · rw [if_pos h2]
        exact (Bool.eq_false_iff.mpr h1).symm
      · rw [if_neg h2]
        have hxne : x ≠ (vid, cv) := by
          intro hxeq
          subst hxeq
          simp at h2
        rw [hunique x hx hxne]
        exact (Bool.eq_false_iff.mpr h1).symm
  have hmain : stageCount ⟨st.versions.map (moveStageFun AWSCURRENT token vid)⟩ AWSCURRENT
      = st.versions.countP (fun p => p.1 == token) :=
    countP_map_pointwise _ _ _ _ hpt
  rw [hmain]
  exact countP_key_eq_one st.versions token hnd hmemtok

theorem move_pending_count (st : SecretState) (token vid : String) :
    stageCount ⟨st.versions.map (moveStageFun AWSCURRENT token vid)⟩ AWSPENDING
      = stageCount st AWSPENDING :=
  countP_map_pointwise _ _ _ _
    (fun x _ => hasStage_moveFun_other AWSCURRENT AWSPENDING token vid (by decide) x)

/-! ## Well-formedness is preserved by every step -/

theorem keyMem_false_not_mem (st : SecretState) (k : String) (h : keyMem st k = false) :
    k ∉ st.versions.map Prod.fst := by
  intro hmem
  rw [List.mem_map] at hmem
  obtain ⟨x, hx, hxe⟩ := hmem
  unfold keyMem at h
  rw [List.any_eq_false] at h
  exact h x hx (by simp [hxe])

theorem wf_put (st : SecretState) (token : String) (pl : Payload) (st' : SecretState)
    (hwf : WF st) (h : put_secret_value st token pl = .ok st') : WF st' := by
  obtain ⟨hnd, hcur, hpend⟩ := hwf
  have hstripzero : ∀ x ∈ (stripStage AWSPENDING st).versions,
      hasStage x.2 AWSPENDING = false := by
    have h0 : (stripStage AWSPENDING st).versions.countP
        (fun p => hasStage p.2 AWSPENDING) = 0 := stripStage_count_self AWSPENDING st
    intro x hx
    exact Bool.eq_false_iff.mpr (List.countP_eq_zero.mp h0 x hx)
  simp only [put_secret_value] at h
  by_cases h1 : (st.versions.any (fun p => p.1 == token && p.2.payload != pl)) = true
  · rw [if_pos h1] at h
    cases h
  · rw [if_neg h1] at h
    by_cases h2 : keyMem st token = true
    · rw [if_pos h2] at h
      injection h with h3
      subst h3
      have hndstrip : ((stripStage AWSPENDING st).versions.map Prod.fst).Nodup := by
        rw [stripStage_keys]
        exact hnd
      have hmemstrip : token ∈ (stripStage AWSPENDING st).versions.map Prod.fst := by
        rw [stripStage_keys]
        exact keyMem_mem_keys st token h2
      refine ⟨?_, ?_, ?_⟩
      · show (((stripStage AWSPENDING st).versions.map (attachStageFun AWSPENDING token)).map
          Prod.fst).Nodup
        rw [attachFun_keys, stripStage_keys]
        exact hnd
      · have hother : stageCount
            ⟨(stripStage AWSPENDING st).versions.map (attachStageFun AWSPENDING token)⟩
            AWSCURRENT = stageCount (stripStage AWSPENDING st) AWSCURRENT :=
          countP_map_pointwise _ _ _ _
            (fun x _ => hasStage_attachFun_other AWSPENDING AWSCURRENT token (by decide) x)
        rw [hother, stripStage_count_other AWSPENDING AWSCURRENT st (by decide)]
        exact hcur
      · have hpt : ∀ x ∈ (stripStage AWSPENDING st).versions,
            hasStage (attachStageFun AWSPENDING token x).2 AWSPENDING = (x.1 == token) := by
          intro x hx
          rw [hasStage_attachFun_self]
          by_cases hx1 : (x.1 == token) = true
          · rw [if_pos hx1, hx1]
          · rw [if_neg hx1, hstripzero x hx]
            exact (Bool.eq_false_iff.mpr hx1).symm
        have hmain : stageCount
            ⟨(stripStage AWSPENDING st).versions.map (attachStageFun AWSPENDING token)⟩
            AWSPENDING = (stripStage AWSPENDING st).versions.countP (fun p => p.1 == token) :=
          countP_map_pointwise _ _ _ _ hpt
        rw [hmain, countP_key_eq_one _ token hndstrip hmemstrip]
    · rw [if_neg h2] at h
      injection h with h3
      subst h3
      have h2f : keyMem st token = false := by
        cases hkm : keyMem st token
        · rfl
        · exact absurd hkm h2
      have hnotcur : hasStage (⟨pl, [AWSPENDING]⟩ : Version) AWSCURRENT = false := rfl
      refine ⟨?_, ?_, ?_⟩
      · show ((((stripStage AWSPENDING st).versions
            ++ [(token, (⟨pl, [AWSPENDING]⟩ : Version))]).map Prod.fst)).Nodup
        rw [List.map_append, stripStage_keys]
        rw [List.nodup_append]
        refine ⟨hnd, List.nodup_singleton _, ?_⟩
        intro a ha hb
        simp only [List.map_cons, List.map_nil, List.mem_singleton] at hb
        subst hb
        exact keyMem_false_not_mem st a h2f ha
      · show ((stripStage AWSPENDING st).versions
            ++ [(token, (⟨pl, [AWSPENDING]⟩ : Version))]).countP
            (fun p => hasStage p.2 AWSCURRENT) ≤ 1
        rw [List.countP_append]
        have hz : ((stripStage AWSPENDING st).versions.countP
            (fun p => hasStage p.2 AWSCURRENT)) = stageCount st AWSCURRENT :=
          stripStage_count_other AWSPENDING AWSCURRENT st (by decide)
        rw [hz, List.countP_cons, if_neg (by simp [hnotcur])]
        simp only [List.countP_nil]
        omega
      · have hone := put_result_pending_count st token ⟨pl, [AWSPENDING]⟩ rfl
        rw [hone]

theorem wf_create (token pass : String) (st st' : SecretState) (hwf : WF st)
    (h : create_secret token pass st = .ok st') : WF st' := by
  cases hg : getByTokenStage st token AWSPENDING with
  | some v =>
    simp only [create_secret, hg] at h
    injection h with h2
    rw [← h2]
    exact hwf
  | none =>
    simp only [create_secret, hg] at h
    cases hd : get_secret_dict st AWSCURRENT none with
    | none =>
      rw [hd] at h
      cases h
    | some cur =>
      rw [hd] at h
      exact wf_put st token _ st' hwf h

theorem set_secret_ok_eq (ok : Bool) (t : String) (st st' : SecretState)
    (h : set_secret ok t st = .ok st') : st' = st := by
  rcases set_secret_frame ok t st with h1 | ⟨e, h1⟩
  · rw [h1] at h
    injection h with h2
    exact h2.symm
  · rw [h1] at h
    cases h

theorem test_secret_ok_eq (c q : Bool) (r : Int) (t : String) (st st' : SecretState)
    (h : test_secret c q r t st = .ok st') : st' = st := by
  rcases test_secret_frame c q r t st with h1 | ⟨e, h1⟩
  · rw [h1] at h
    injection h with h2
    exact h2.symm
  · rw [h1] at h
    cases h

theorem wf_finish_secret (token : String) (st st' : SecretState) (hwf : WF st)
    (h : finish_secret token st = .ok st') : WF st' := by
  rcases finish_ok_cases token st st' h with ⟨cv, _, rfl⟩ | ⟨vid, cv, hf, _, hk, rfl⟩
  · exact hwf
  · obtain ⟨hnd, hcur, hpend⟩ := hwf
    have hfind' : st.versions.find? (fun p => hasStage p.2 AWSCURRENT) = some (vid, cv) := hf
    refine ⟨?_, ?_, ?_⟩
    · show ((st.versions.map (moveStageFun AWSCURRENT token vid)).map Prod.fst).Nodup
      rw [moveFun_keys]
      exact hnd
    · rw [move_current_count st token vid cv hnd hcur hfind' (keyMem_mem_keys st token hk)]
    · rw [move_pending_count st token vid]
      exact hpend

theorem handler_ok_create (t np : String) (st s' : SecretState)
    (h : execStep (.create t np) st = .ok s') : create_secret t np st = .ok s' := by
  simp only [execStep] at h
  unfold lambda_handler at h
  by_cases hk : keyMem st "AWSCURRENT" = false
  · rw [if_pos hk] at h
    cases h
  · rw [if_neg hk, if_pos rfl] at h
    exact h

theorem handler_ok_set (t : String) (ok : Bool) (st s' : SecretState)
    (h : execStep (.set t ok) st = .ok s') : set_secret ok t st = .ok s' := by
  simp only [execStep] at h
  unfold lambda_handler at h
  by_cases hk : keyMem st "AWSCURRENT" = false
  · rw [if_pos hk] at h
    cases h
  · rw [if_neg hk, if_neg (by decide), if_pos rfl] at h
    exact h

theorem handler_ok_test (t : String) (c q : Bool) (r : Int) (st s' : SecretState)
    (h : execStep (.test t c q r) st = .ok s') : test_secret c q r t st = .ok s' := by
  simp only [execStep] at h
  unfold lambda_handler at h
  by_cases hk : keyMem st "AWSCURRENT" = false
  · rw [if_pos hk] at h
    cases h
  · rw [if_neg hk, if_neg (by decide), if_neg (by decide), if_pos rfl] at h
    exact h

theorem handler_ok_finish (t : String) (st s' : SecretState)
    (h : execStep (.finish t) st = .ok s') : finish_secret t st = .ok s' := by
  simp only [execStep] at h
  unfold lambda_handler at h
  by_cases hk : keyMem st "AWSCURRENT" = false
  · rw [if_pos hk] at h
    cases h
  · rw [if_neg hk, if_neg (by decide), if_neg (by decide), if_neg (by decide), if_pos rfl] at h
    exact h

theorem wf_stepState (c : StepCall) (st : SecretState) (hwf : WF st) : WF (stepState c st) := by
  cases hex : execStep c st with
  | error e =>
    rw [stepState_eq_of_error hex]
    exact hwf
  | ok s' =>
    rw [stepState_eq_of_ok hex]
    cases c with
    | create t np => exact wf_create t np st s' hwf (handler_ok_create t np st s' hex)
    | set t ok =>
      rw [set_secret_ok_eq ok t st s' (handler_ok_set t ok st s' hex)]
      exact hwf
    | test t cO qR r =>
      rw [test_secret_ok_eq cO qR r t st s' (handler_ok_test t cO qR r st s' hex)]
      exact hwf
    | finish t => exact wf_finish_secret t st s' hwf (handler_ok_finish t st s' hex)

/-- Claim C1: starting from a well-formed store (distinct version ids,
store-enforced label uniqueness), after any sequence of rotation steps
executed by the handler — Create, Set, Test, Finish, in any order, with
any outcomes — at most one version carries `AWSCURRENT` and at most one
carries `AWSPENDING`. -/
theorem rotation_stage_labels_at_most_one (cs : List StepCall) (st : SecretState) (hwf : WF st) :
    stageCount (runSteps cs st) AWSCURRENT ≤ 1 ∧ stageCount (runSteps cs st) AWSPENDING ≤ 1 := by
  have hall : WF (runSteps cs st) := by
    induction cs generalizing st with
    | nil => exact hwf
    | cons c cs ih =>
      rw [runSteps_cons]
      exact ih (stepState c st) (wf_stepState c st hwf)
  exact ⟨hall.2.1, hall.2.2⟩

theorem rotation_stage_labels_at_most_one_witness :
    stageCount (runSteps [StepCall.create "t1" "N3wPass!1", StepCall.set "t1" true,
      StepCall.test "t1" true false 1, StepCall.finish "t1"] stC) AWSCURRENT ≤ 1 ∧
    stageCount (runSteps [StepCall.create "t1" "N3wPass!1", StepCall.set "t1" true,
      StepCall.test "t1" true false 1, StepCall.finish "t1"] stC) AWSPENDING ≤ 1 :=
  rotation_stage_labels_at_most_one _ stC ⟨by decide, by decide, by decide⟩

/-- Claim C3: on a well-formed store with a current version and a version
for the token, Finish succeeds, and invoking it a second time with the
same token succeeds idempotently, returning the state after the first
call unchanged (when the token already carries `AWSCURRENT` the function
returns before any stage update); exactly one version carries
`AWSCURRENT` afterwards. -/
theorem finish_secret_idempotent (token : String) (st : SecretState)
    (hwf : WF st) (hcur : (findStage st AWSCURRENT).isSome = true)
    (htok : keyMem st token = true) :
    ∃ st1, finish_secret token st = .ok st1 ∧ finish_secret token st1 = .ok st1 ∧
      stageCount st1 AWSCURRENT = 1 := by
  obtain ⟨pr, hfs⟩ := Option.isSome_iff_exists.mp hcur
  obtain ⟨vid, cv⟩ := pr
  have hfind' : st.versions.find? (fun p => hasStage p.2 AWSCURRENT) = some (vid, cv) := hfs
  by_cases hv : vid = token
  · subst hv
    have hok : finish_secret vid st = .ok st := by
      simp only [finish_secret, hfs]
      simp
    refine ⟨st, hok, hok, ?_⟩
    have hpa := List.find?_some hfind'
    have hpos : 0 < stageCount st AWSCURRENT :=
      List.countP_pos_iff.mpr ⟨(vid, cv), List.mem_of_find?_eq_some hfind', hpa⟩
    have hle := hwf.2.1
    omega
  · have heq := finish_move_eq token vid cv st hfs hv htok
    refine ⟨_, heq, ?_, ?_⟩
    · obtain ⟨x0, hx0, hx0t⟩ : ∃ x ∈ st.versions, x.1 = token := by
        have hm := keyMem_mem_keys st token htok
        rw [List.mem_map] at hm
        obtain ⟨x, hx, hxe⟩ := hm
        exact ⟨x, hx, hxe⟩
      have hunique := find?_unique_aux _ _ _ hfind' hwf.2.1
      have himg : hasStage (moveStageFun AWSCURRENT token vid x0).2 AWSCURRENT = true := by
        rw [hasStage_moveFun_self]
        rw [if_pos (by simp [hx0t])]
      have hsome : ((SecretState.mk (st.versions.map (moveStageFun AWSCURRENT token vid))).versions.find?
          (fun p => hasStage p.2 AWSCURRENT)).isSome := by
        rw [List.find?_isSome]
        exact ⟨_, List.mem_map_of_mem _ hx0, himg⟩
      obtain ⟨e, he⟩ := Option.isSome_iff_exists.mp hsome
      have hep := List.find?_some he
      have hem := List.mem_of_find?_eq_some he
      obtain ⟨y, hy, hye⟩ := List.mem_map.mp hem
      have hekey : e.1 = y.1 := by
        rw [← hye]
        exact moveFun_fst _ _ _ y
      have hyt : (y.1 == token) = true := by
        by_contra hyt
        have hv2 := hasStage_moveFun_self AWSCURRENT token vid y
        rw [if_neg hyt, hye] at hv2
        by_cases hyv : (y.1 == vid) = true
        · rw [if_pos hyv] at hv2
          rw [hep] at hv2
          cases hv2
        · rw [if_neg hyv] at hv2
          have hyne : y ≠ (vid, cv) := by
            intro hyeq
            subst hyeq
            simp at hyv
          rw [hunique y hy hyne] at hv2
          rw [hep] at hv2
          cases hv2
      have hetok : e.1 = token := by
        rw [hekey]
        exact eq_of_beq hyt
      have hfind1 : findStage ⟨st.versions.map (moveStageFun AWSCURRENT token vid)⟩ AWSCURRENT
          = some e := he
      simp only [finish_secret, hfind1]
      rw [if_pos hetok]
    · exact move_current_count st token vid cv hwf.1 hwf.2.1 hfind'
        (keyMem_mem_keys st token htok)

theorem finish_secret_idempotent_witness :
    ∃ st1, finish_secret "v2" stC = .ok st1 ∧ finish_secret "v2" st1 = .ok st1 ∧
      stageCount st1 AWSCURRENT = 1 :=
  finish_secret_idempotent "v2" stC ⟨by decide, by decide, by decide⟩ (by decide) (by decide)

/-- Claim C4: when the token version is not yet current, Finish performs
exactly one store update — the atomic stage move — after which the token
version carries `AWSCURRENT`, and the previously current version is
still present in the store with the same payload but without the
`AWSCURRENT` label; exactly one version carries `AWSCURRENT`. -/
theorem finish_secret_single_move (token vid : String) (cv : Version) (st : SecretState)
    (hwf : WF st) (hfind : findStage st AWSCURRENT = some (vid, cv)) (hne : vid ≠ token)
    (htok : keyMem st token = true) :
    finish_secret token st = update_secret_version_stage st AWSCURRENT token (some vid) ∧
    ∃ st1, finish_secret token st = .ok st1 ∧
      (vid, (⟨cv.payload, cv.stages.filter (fun l => l != AWSCURRENT)⟩ : Version)) ∈ st1.versions ∧
      hasStage (⟨cv.payload, cv.stages.filter (fun l => l != AWSCURRENT)⟩ : Version) AWSCURRENT
        = false ∧
      (∃ tv, (token, tv) ∈ st1.versions ∧ hasStage tv AWSCURRENT = true) ∧
      stageCount st1 AWSCURRENT = 1 := by
  constructor
  · simp only [finish_secret, hfind]
    rw [if_neg hne]
  · have heq := finish_move_eq token vid cv st hfind hne htok
    have hfind' : st.versions.find? (fun p => hasStage p.2 AWSCURRENT) = some (vid, cv) := hfind
    refine ⟨_, heq, ?_, ?_, ?_, ?_⟩
    · have hmemv : (vid, cv) ∈ st.versions := List.mem_of_find?_eq_some hfind'
      have himg : moveStageFun AWSCURRENT token vid (vid, cv)
          = (vid, ⟨cv.payload, cv.stages.filter (fun l => l != AWSCURRENT)⟩) := by
        unfold moveStageFun
        rw [if_neg (by simp [hne]), if_pos (by simp)]
      rw [← himg]
      exact List.mem_map_of_mem _ hmemv
    · unfold hasStage
      exact contains_filter_self _ _
    · obtain ⟨x0, hx0, hx0t⟩ : ∃ x ∈ st.versions, x.1 = token := by
        have hm := keyMem_mem_keys st token htok
        rw [List.mem_map] at hm
        obtain ⟨x, hx, hxe⟩ := hm
        exact ⟨x, hx, hxe⟩
      have himg0 : moveStageFun AWSCURRENT token vid x0
          = (token, ⟨x0.2.payload, addStage x0.2.stages AWSCURRENT⟩) := by
        unfold moveStageFun
        rw [if_pos (by simp [hx0t])]
        rw [hx0t]
      refine ⟨⟨x0.2.payload, addStage x0.2.stages AWSCURRENT⟩, ?_, ?_⟩
      · rw [← himg0]
        exact List.mem_map_of_mem _ hx0
      · unfold hasStage
        exact contains_addStage_self _ _
    · exact move_current_count st token vid cv hwf.1 hwf.2.1 hfind'
        (keyMem_mem_keys st token htok)

theorem finish_secret_single_move_witness :
    (finish_secret "v2" stC = update_secret_version_stage stC AWSCURRENT "v2" (some "v1") ∧
    ∃ st1, finish_secret "v2" stC = .ok st1 ∧
      ("v1", (⟨pvW, ["AWSCURRENT"].filter (fun l => l != AWSCURRENT)⟩ : Version)) ∈ st1.versions ∧
      hasStage (⟨pvW, ["AWSCURRENT"].filter (fun l => l != AWSCURRENT)⟩ : Version) AWSCURRENT
        = false ∧
      (∃ tv, ("v2", tv) ∈ st1.versions ∧ hasStage tv AWSCURRENT = true) ∧
      stageCount st1 AWSCURRENT = 1) :=
  finish_secret_single_move "v2" "v1" ⟨pvW, ["AWSCURRENT"]⟩ stC
    ⟨by decide, by decide, by decide⟩ (by decide) (by decide) (by decide)

end SecretRotation
